import Mathlib

/-!
Verification of the music-queue core of a guild-scoped music bot.

The definitions below are a shallow embedding of `bot/music/track.py`,
`bot/music/queue.py` and the `seek` operation of `bot/music/player.py`.
Python lists become `List`, Python `int` becomes `Int` (indices may be
negative), `None`-able values become `Option`, dictionaries become
association lists over a small value type, and the two effectful inputs
(`random.shuffle`, `datetime.now`, the extractor's stream-URL lookup)
become explicit parameters.
-/

namespace Bot

/-- A Python value as it appears in the track serialization dictionary:
a string, an integer, or `None`. -/
inductive PyVal where
  | pstr (s : String)
  | pint (n : Int)
  | pnone
deriving DecidableEq, Repr

/-- `bot/music/track.py`: the `Track` dataclass.  `duration` is a Python
`int`; `added_at` is the `datetime.now()` creation timestamp, modelled as
an abstract tick count. -/
structure Track where
  url : String
  title : String
  duration : Int
  thumbnail : Option String
  webpage_url : Option String
  stream_url : Option String
  source : String
  requester_id : Option Int
  requester_name : String
  added_at : Nat
deriving DecidableEq, Repr

/-- Embed an optional string the way it sits in a Python dict. -/
def pyOfOptStr : Option String → PyVal
  | some s => .pstr s
  | none => .pnone

/-- Embed an optional integer the way it sits in a Python dict. -/
def pyOfOptInt : Option Int → PyVal
  | some n => .pint n
  | none => .pnone

/-- `dict.__getitem__` lookup that distinguishes a missing key (`none`)
from a key stored with value `None` (`some .pnone`). -/
def dictFind (d : List (String × PyVal)) (k : String) : Option PyVal :=
  (d.find? (fun p => p.1 == k)).map (fun p => p.2)

/-- `data.get(k, dflt)` read back into a string field. -/
def dGetStr (d : List (String × PyVal)) (k : String) (dflt : String) : String :=
  match dictFind d k with
  | some (.pstr s) => s
  | _ => dflt

/-- `data.get(k, dflt)` read back into an integer field. -/
def dGetInt (d : List (String × PyVal)) (k : String) (dflt : Int) : Int :=
  match dictFind d k with
  | some (.pint n) => n
  | _ => dflt

/-- `data.get(k)` read back into an optional string field. -/
def dGetOptStr (d : List (String × PyVal)) (k : String) : Option String :=
  match dictFind d k with
  | some (.pstr s) => some s
  | _ => none

/-- `data.get(k)` read back into an optional integer field. -/
def dGetOptInt (d : List (String × PyVal)) (k : String) : Option Int :=
  match dictFind d k with
  | some (.pint n) => n
  | _ => none

/-- `Track.to_dict`: the persisted dictionary, in source order.  The
ephemeral `stream_url` and the `added_at` timestamp are not written. -/
def Track.to_dict (t : Track) : List (String × PyVal) :=
  [("url", .pstr t.url),
   ("title", .pstr t.title),
   ("duration", .pint t.duration),
   ("thumbnail", pyOfOptStr t.thumbnail),
   ("webpage_url", pyOfOptStr t.webpage_url),
   ("source", .pstr t.source),
   ("requester_id", pyOfOptInt t.requester_id),
   ("requester_name", .pstr t.requester_name)]

/-- `Track.from_dict`.  The dataclass default `added_at=datetime.now()`
is modelled by the explicit `now` argument; `stream_url` keeps its
dataclass default `None`. -/
def Track.from_dict (data : List (String × PyVal)) (now : Nat) : Track :=
  { url := dGetStr data "url" ""
    title := dGetStr data "title" "Unknown Title"
    duration := dGetInt data "duration" 0
    thumbnail := dGetOptStr data "thumbnail"
    webpage_url := dGetOptStr data "webpage_url"
    stream_url := none
    source := dGetStr data "source" "unknown"
    requester_id := dGetOptInt data "requester_id"
    requester_name := dGetStr data "requester_name" "Unknown"
    added_at := now }

/-- `bot/music/queue.py`: the `LoopMode` enum. -/
inductive LoopMode where
  | off
  | one
  | all
deriving DecidableEq, Repr

/-- The mutable state of `MusicQueue`. -/
structure MusicQueue where
  tracks : List Track
  current_index : Int
  loop_mode : LoopMode
  max_size : Nat
  history : List Track
deriving DecidableEq, Repr

/-- Python slice `l[:k]` (negative stops count from the end and clamp). -/
def pySliceTo (k : Int) (l : List α) : List α :=
  if 0 ≤ k then l.take k.toNat else l.take (l.length - (-k).toNat)

/-- Python slice `l[k:]` (negative starts count from the end and clamp). -/
def pySliceFrom (k : Int) (l : List α) : List α :=
  if 0 ≤ k then l.drop k.toNat else l.drop (l.length - (-k).toNat)

/-- Python `list.insert(i, x)`: the position is clamped into
`[0, len]`, counting from the end when negative; it always inserts. -/
def pyListInsert (l : List α) (i : Int) (x : α) : List α :=
  if 0 ≤ i then l.insertIdx (min i.toNat l.length) x
  else l.insertIdx (l.length - (-i).toNat) x

/-- `MusicQueue.__init__(max_size)`. -/
def MusicQueue.empty (max_size : Nat) : MusicQueue :=
  { tracks := [], current_index := 0, loop_mode := .off,
    max_size := max_size, history := [] }

/-- `MusicQueue.size`. -/
def MusicQueue.size (q : MusicQueue) : Nat :=
  q.tracks.length

/-- `MusicQueue.current`: the track at `current_index` when that index is
in `[0, len)`, else `None`. -/
def MusicQueue.current (q : MusicQueue) : Option Track :=
  if 0 ≤ q.current_index then q.tracks.get? q.current_index.toNat else none

/-- `MusicQueue.add`: append at the tail unless the queue is full. -/
def MusicQueue.add (q : MusicQueue) (track : Track) : MusicQueue × Bool :=
  if q.max_size ≤ q.tracks.length then (q, false)
  else ({ q with tracks := q.tracks ++ [track] }, true)

/-- `MusicQueue.add_many`: `tracks[:available]` is a Python slice, so a
negative `available` (queue already over capacity) drops elements from
the end of the batch rather than producing the empty list. -/
def MusicQueue.add_many (q : MusicQueue) (ts : List Track) : MusicQueue × Nat :=
  let available : Int := (q.max_size : Int) - (q.tracks.length : Int)
  let to_add := pySliceTo available ts
  ({ q with tracks := q.tracks ++ to_add }, to_add.length)

/-- `MusicQueue.insert`: the effective index is
`max(current_index + 1, min(index, len))`. -/
def MusicQueue.insert (q : MusicQueue) (index : Int) (track : Track) :
    MusicQueue × Bool :=
  if q.max_size ≤ q.tracks.length then (q, false)
  else
    let actual : Int := max (q.current_index + 1)
      (min index (q.tracks.length : Int))
    ({ q with tracks := pyListInsert q.tracks actual track }, true)

/-- `MusicQueue.remove`: out-of-range indices are rejected; a valid
removal pops the element and re-homes the cursor. -/
def MusicQueue.remove (q : MusicQueue) (index : Int) :
    MusicQueue × Option Track :=
  if h : 0 ≤ index ∧ index < (q.tracks.length : Int) then
    let track := q.tracks.get ⟨index.toNat, by omega⟩
    let rest := q.tracks.eraseIdx index.toNat
    let ci := q.current_index
    let ci2 :=
      if index < ci then ci - 1
      else if index = ci ∧ (rest.length : Int) ≤ ci then
        max 0 ((rest.length : Int) - 1)
      else ci
    ({ q with tracks := rest, current_index := ci2 }, some track)
  else (q, none)

/-- The history update inside `next`: append the current track, then
`pop(0)` once when the history has grown past 50 entries. -/
def pushHistory (hist : List Track) (c : Track) : List Track :=
  let h := hist ++ [c]
  if 50 < h.length then h.drop 1 else h

/-- `MusicQueue.next`: record the current track into the 50-capped
history, then advance according to the loop mode. -/
def MusicQueue.next (q : MusicQueue) : MusicQueue × Option Track :=
  if q.tracks.length = 0 then (q, none)
  else
    let q1 :=
      match q.current with
      | some c => { q with history := pushHistory q.history c }
      | none => q
    if q1.loop_mode = LoopMode.one then (q1, q1.current)
    else if q1.current_index + 1 < (q1.tracks.length : Int) then
      let q2 := { q1 with current_index := q1.current_index + 1 }
      (q2, q2.current)
    else if q1.loop_mode = LoopMode.all then
      let q2 := { q1 with current_index := 0 }
      (q2, q2.current)
    else (q1, none)

/-- `MusicQueue.shuffle`: `random.shuffle` of the strict suffix after the
cursor, with the random permutation made an explicit parameter. -/
def MusicQueue.shuffleWith (q : MusicQueue)
    (permute : List Track → List Track) : MusicQueue :=
  if q.current_index + 1 < (q.tracks.length : Int) then
    let upcoming := pySliceFrom (q.current_index + 1) q.tracks
    { q with tracks :=
        pySliceTo (q.current_index + 1) q.tracks ++ permute upcoming }
  else q

/-- `MusicQueue.move`: pop at `from_index`, re-insert at `to_index`, and
adjust the cursor through the three crossing cases. -/
def MusicQueue.move (q : MusicQueue) (from_index to_index : Int) :
    MusicQueue × Bool :=
  if h : 0 ≤ from_index ∧ from_index < (q.tracks.length : Int) ∧
      0 ≤ to_index ∧ to_index < (q.tracks.length : Int) then
    let track := q.tracks.get ⟨from_index.toNat, by omega⟩
    let rest := q.tracks.eraseIdx from_index.toNat
    let tracks2 := pyListInsert rest to_index track
    let ci := q.current_index
    let ci2 :=
      if from_index = ci then to_index
      else if from_index < ci ∧ ci ≤ to_index then ci - 1
      else if to_index ≤ ci ∧ ci < from_index then ci + 1
      else ci
    ({ q with tracks := tracks2, current_index := ci2 }, true)
  else (q, false)

/-- `MusicQueue.restore_state`: installs the given list wholesale (no
capacity check) and clamps the cursor only from above:
`min(current_index, max(0, len(tracks) - 1))`. -/
def MusicQueue.restore_state (q : MusicQueue) (tracks : List Track)
    (current_index : Int) (loop_mode : LoopMode) : MusicQueue :=
  { q with tracks := tracks,
           current_index := min current_index
             (max 0 ((tracks.length : Int) - 1)),
           loop_mode := loop_mode }

/-- One queue mutation of the kind quantified over by the cursor
invariant: `add`, `insert` or `remove`. -/
inductive QOp where
  | addOp (t : Track)
  | insertOp (i : Int) (t : Track)
  | removeOp (i : Int)
deriving Repr

/-- Apply one mutation, discarding the reported result. -/
def applyOp (q : MusicQueue) : QOp → MusicQueue
  | .addOp t => (q.add t).1
  | .insertOp i t => (q.insert i t).1
  | .removeOp i => (q.remove i).1

/-- Apply a whole program of mutations in order. -/
def applyOps (q : MusicQueue) (ops : List QOp) : MusicQueue :=
  ops.foldl applyOp q

/-- Iterate `next`, keeping only the state. -/
def nextIter (q : MusicQueue) : Nat → MusicQueue
  | 0 => q
  | k + 1 => ((nextIter q k).next).1

/-- The cursor invariant: the index is non-negative, and is inside the
list whenever the list is non-empty (it rests at `0` when empty). -/
def QueueInv (q : MusicQueue) : Prop :=
  0 ≤ q.current_index ∧
    (q.current_index < (q.tracks.length : Int) ∨
      (q.tracks.length = 0 ∧ q.current_index = 0))

/-- `bot/music/player.py`: the slice of `MusicPlayer` state that `seek`
reads or writes.  `_voice_client` presence is a flag, `_volume` is kept
as an integer percentage, and `_current_position` (set only to the whole
`seconds` argument on a successful seek) is an `Int`. -/
structure MusicPlayer where
  queue : MusicQueue
  has_voice_client : Bool
  volume_percent : Int
  is_playing : Bool
  paused : Bool
  current_position : Int
deriving DecidableEq, Repr

/-- `MusicPlayer.seek`.  The extractor call
`await self.extractor.get_stream_url(track)` is the explicit
`stream_url` oracle argument (`none`/empty means the refresh failed);
the voice-transport calls mutate no modelled state. -/
def MusicPlayer.seek (p : MusicPlayer) (seconds : Int)
    (stream_url : Option String) : MusicPlayer × Bool :=
  match p.queue.current with
  | none => (p, false)
  | some track =>
    if p.has_voice_client = false then (p, false)
    else if seconds < 0 ∨ (0 < track.duration ∧ track.duration ≤ seconds) then
      (p, false)
    else
      match stream_url with
      | none => (p, false)
      | some u =>
        if u = "" then (p, false)
        else ({ p with current_position := seconds }, true)

/-- Concrete sample track "A" for witnesses. -/
def trackA : Track :=
  { url := "urlA", title := "A", duration := 180, thumbnail := none,
    webpage_url := none, stream_url := none, source := "test",
    requester_id := some 1, requester_name := "U", added_at := 0 }

/-- Concrete sample track "B" for witnesses. -/
def trackB : Track :=
  { trackA with url := "urlB", title := "B", duration := 200 }

/-- Concrete sample track "C" for witnesses. -/
def trackC : Track :=
  { trackA with url := "urlC", title := "C", duration := 300 }

/-- A size-3 queue `[A, B, C]` with the cursor on `B`. -/
def qABC : MusicQueue :=
  { tracks := [trackA, trackB, trackC], current_index := 1,
    loop_mode := .off, max_size := 500, history := [] }

/-- A size-2 queue `[A, B]` in `ALL` loop mode with the cursor on `A`. -/
def qAB : MusicQueue :=
  { tracks := [trackA, trackB], current_index := 0,
    loop_mode := .all, max_size := 500, history := [] }

/-- A queue driven over its capacity bound (3 tracks, `max_size = 2`)
through `restore_state`. -/
def qOver : MusicQueue :=
  (MusicQueue.empty 2).restore_state [trackA, trackB, trackC] 0 .off

/-- A size-3 queue `[A, B, C]` with the cursor on `A`, so two tracks
are upcoming. -/
def qA0 : MusicQueue :=
  { tracks := [trackA, trackB, trackC], current_index := 0,
    loop_mode := .off, max_size := 500, history := [] }

/-- A queue of one track that is exactly at its capacity bound. -/
def qFull : MusicQueue :=
  { tracks := [trackA], current_index := 0, loop_mode := .off,
    max_size := 1, history := [] }

/-- A connected sample player whose current track lasts 180 seconds. -/
def playerA : MusicPlayer :=
  { queue := { qAB with loop_mode := .off }, has_voice_client := true,
    volume_percent := 50, is_playing := true, paused := false,
    current_position := 42 }

/-- On a valid index, `remove` pops the element and re-homes the cursor
exactly as the source's three-way conditional does. -/
theorem remove_eq_of_valid (q : MusicQueue) (i : Int) (h0 : 0 ≤ i)
    (h1 : i < (q.tracks.length : Int)) :
    q.remove i =
      ({ q with
          tracks := q.tracks.eraseIdx i.toNat,
          current_index :=
            if i < q.current_index then q.current_index - 1
            else if i = q.current_index ∧
                ((q.tracks.eraseIdx i.toNat).length : Int) ≤ q.current_index
              then max 0 (((q.tracks.eraseIdx i.toNat).length : Int) - 1)
              else q.current_index },
        some (q.tracks.get ⟨i.toNat, by omega⟩)) := by
  unfold MusicQueue.remove
  rw [dif_pos ⟨h0, h1⟩]

/-- `QueueInv` holds for a fresh queue. -/
theorem queueInv_empty (m : Nat) : QueueInv (MusicQueue.empty m) := by
  simp [QueueInv, MusicQueue.empty]

/-- `add` preserves the cursor invariant. -/
theorem queueInv_add (q : MusicQueue) (t : Track) (h : QueueInv q) :
    QueueInv (q.add t).1 := by
  unfold MusicQueue.add
  split
  · exact h
  · simp only [QueueInv, List.length_append, List.length_cons,
      List.length_nil] at h ⊢
    omega

/-- `pyListInsert` always grows the list by one element. -/
theorem pyListInsert_length (l : List α) (i : Int) (x : α) :
    (pyListInsert l i x).length = l.length + 1 := by
  unfold pyListInsert
  split
  · rw [List.length_insertIdx _ _ (by omega)]
  · rw [List.length_insertIdx _ _ (by omega)]

/-- `insert` preserves the cursor invariant. -/
theorem queueInv_insert (q : MusicQueue) (i : Int) (t : Track)
    (h : QueueInv q) : QueueInv (q.insert i t).1 := by
  unfold MusicQueue.insert
  split
  · exact h
  · simp only [QueueInv, pyListInsert_length] at h ⊢
    omega

/-- `remove` preserves the cursor invariant. -/
theorem queueInv_remove (q : MusicQueue) (i : Int) (h : QueueInv q) :
    QueueInv (q.remove i).1 := by
  by_cases hv : 0 ≤ i ∧ i < (q.tracks.length : Int)
  · obtain ⟨h0v, h1v⟩ := hv
    have hrest : (q.tracks.eraseIdx i.toNat).length =
        q.tracks.length - 1 :=
      List.length_eraseIdx_of_lt (by omega)
    rw [remove_eq_of_valid q i h0v h1v]
    simp only [QueueInv] at h ⊢
    split
    · omega
    · split <;> omega
  · unfold MusicQueue.remove
    rw [dif_neg hv]
    exact h

/-- Each of `add`, `insert`, `remove` preserves the cursor invariant. -/
theorem queueInv_applyOp (q : MusicQueue) (op : QOp) (h : QueueInv q) :
    QueueInv (applyOp q op) := by
  cases op with
  | addOp t => exact queueInv_add q t h
  | insertOp i t => exact queueInv_insert q i t h
  | removeOp i => exact queueInv_remove q i h

/-- The cursor invariant holds after any program of mutations. -/
theorem queueInv_applyOps (q : MusicQueue) (ops : List QOp)
    (h : QueueInv q) : QueueInv (applyOps q ops) := by
  induction ops generalizing q with
  | nil => exact h
  | cons op rest ih => exact ih _ (queueInv_applyOp q op h)

/-- C1 — starting from the empty queue, after any finite sequence of
`add` / `remove` / `insert` operations the cursor satisfies
`0 ≤ current_index < size` whenever `size > 0`, and `current` is `None`
whenever `size = 0`. -/
theorem c1_cursor_invariant (m : Nat) (ops : List QOp) :
    (0 < (applyOps (MusicQueue.empty m) ops).size →
      0 ≤ (applyOps (MusicQueue.empty m) ops).current_index ∧
      (applyOps (MusicQueue.empty m) ops).current_index <
        ((applyOps (MusicQueue.empty m) ops).size : Int)) ∧
    ((applyOps (MusicQueue.empty m) ops).size = 0 →
      (applyOps (MusicQueue.empty m) ops).current = none) := by
  obtain ⟨h1, h2⟩ := queueInv_applyOps (MusicQueue.empty m) ops
    (queueInv_empty m)
  constructor
  · intro hpos
    unfold MusicQueue.size at hpos
    exact ⟨h1, by unfold MusicQueue.size; omega⟩
  · intro hz
    unfold MusicQueue.size at hz
    unfold MusicQueue.current
    rw [if_pos h1, List.get?_eq_none.mpr (by omega)]

/-- C1 witness — a concrete program of five mutations on a capacity-3
queue ends with the cursor inside bounds. -/
theorem c1_cursor_invariant_witness :
    0 ≤ (applyOps (MusicQueue.empty 3)
      [QOp.addOp trackA, QOp.addOp trackB, QOp.removeOp 0,
       QOp.insertOp 0 trackC, QOp.removeOp 1]).current_index ∧
    (applyOps (MusicQueue.empty 3)
      [QOp.addOp trackA, QOp.addOp trackB, QOp.removeOp 0,
       QOp.insertOp 0 trackC, QOp.removeOp 1]).current_index <
      ((applyOps (MusicQueue.empty 3)
        [QOp.addOp trackA, QOp.addOp trackB, QOp.removeOp 0,
         QOp.insertOp 0 trackC, QOp.removeOp 1]).size : Int) :=
  (c1_cursor_invariant 3
    [QOp.addOp trackA, QOp.addOp trackB, QOp.removeOp 0,
     QOp.insertOp 0 trackC, QOp.removeOp 1]).1 (by decide)

/-- C2 — removing at a valid index returns the track previously there
and erases it; a removal below the cursor shifts the cursor down by one;
a removal at the cursor clamps it to the new last valid index (when the
queue stays non-empty). -/
theorem c2_remove_pointer_semantics (q : MusicQueue) (i : Int)
    (h0 : 0 ≤ i) (h1 : i < (q.tracks.length : Int)) :
    (q.remove i).2 = some (q.tracks.get ⟨i.toNat, by omega⟩) ∧
    (q.remove i).1.tracks = q.tracks.eraseIdx i.toNat ∧
    (i < q.current_index →
      (q.remove i).1.current_index = q.current_index - 1) ∧
    (i = q.current_index → 0 < (q.remove i).1.tracks.length →
      (q.remove i).1.current_index =
        min q.current_index (((q.remove i).1.tracks.length : Int) - 1)) := by
  have hrest : (q.tracks.eraseIdx i.toNat).length = q.tracks.length - 1 :=
    List.length_eraseIdx_of_lt (by omega)
  rw [remove_eq_of_valid q i h0 h1]
  refine ⟨rfl, rfl, ?_, ?_⟩
  · intro hlt2
    simp only
    rw [if_pos hlt2]
  · intro heq hpos
    simp only at hpos ⊢
    rw [if_neg (by omega)]
    split <;> omega

/-- C2 witness — the spec's scenario: on `[A, B, C]` with the cursor on
`B`, `remove(0)` returns `A`, leaves `[B, C]`, and the cursor moves to
`0`, still pointing at `B`. -/
theorem c2_remove_pointer_semantics_witness :
    (qABC.remove 0).2 = some trackA ∧
    (qABC.remove 0).1.tracks = [trackB, trackC] ∧
    (qABC.remove 0).1.current_index = 0 ∧
    (qABC.remove 0).1.current = some trackB := by
  have h := c2_remove_pointer_semantics qABC 0 (by decide) (by decide)
  refine ⟨?_, ?_, ?_, by decide⟩
  · rw [h.1]; decide
  · rw [h.2.1]; decide
  · rw [h.2.2.1 (by decide)]; decide

/-- C4 — `to_dict` never writes the ephemeral stream URL, and the
round trip through `from_dict` restores every field except
`stream_url` (reset to `None`) and `added_at` (reset to the
deserialization time). -/
theorem c4_serialization_roundtrip (t : Track) (now : Nat) :
    dictFind (Track.to_dict t) "stream_url" = none ∧
    Track.from_dict (Track.to_dict t) now =
      { t with stream_url := none, added_at := now } := by
  obtain ⟨url, title, dur, th, wp, st, src, rid, rname, ts⟩ := t
  refine ⟨by simp [Track.to_dict, dictFind], ?_⟩
  cases th <;> cases wp <;> cases rid <;>
    simp [Track.to_dict, Track.from_dict, dictFind, dGetStr, dGetInt,
      dGetOptStr, dGetOptInt, pyOfOptStr, pyOfOptInt]

/-- C4 counterexample — on a track created at time 0 and deserialized
at time 7, the round trip does not reproduce the `added_at` field, so
it does not reproduce every field other than the stream URL. -/
theorem c4_roundtrip_loses_added_at :
    (Track.from_dict (Track.to_dict trackA) 7).added_at ≠ trackA.added_at := by
  decide

/-- C6 — `restore_state` installs the provided list wholesale: restoring
3 tracks into a queue with `max_size = 2` leaves the queue above its
capacity bound, so the bound is not an invariant of every operation. -/
theorem c6_restore_breaks_capacity :
    ((MusicQueue.empty 2).restore_state [trackA, trackB, trackC] 0
        LoopMode.off).max_size = 2 ∧
    2 < ((MusicQueue.empty 2).restore_state [trackA, trackB, trackC] 0
        LoopMode.off).size := by
  decide

/-- C3 counterexample — `restore_state` only clamps the cursor from
above: restoring the non-empty list `[A]` with `current_index = -1`
leaves the cursor at `-1`, outside `[0, size)`, and `current` is `None`
although the queue is non-empty. -/
theorem c3_negative_restore_escapes_bounds :
    ((MusicQueue.empty 500).restore_state [trackA] (-1)
        LoopMode.off).current_index = -1 ∧
    ((MusicQueue.empty 500).restore_state [trackA] (-1)
        LoopMode.off).size = 1 ∧
    ((MusicQueue.empty 500).restore_state [trackA] (-1)
        LoopMode.off).current = none := by
  decide

/-- C3 (amended) — `restore_state` installs the given tracks and clamps
the cursor from above to the last valid index; for every non-negative
requested index and non-empty track list the cursor invariant holds
right after the restore. -/
theorem c3_restore_clamps_from_above (q : MusicQueue) (ts : List Track)
    (ci : Int) (lm : LoopMode) (h0 : 0 ≤ ci) (h1 : ts ≠ []) :
    (q.restore_state ts ci lm).tracks = ts ∧
    (q.restore_state ts ci lm).current_index =
      min ci ((ts.length : Int) - 1) ∧
    0 ≤ (q.restore_state ts ci lm).current_index ∧
    (q.restore_state ts ci lm).current_index < (ts.length : Int) := by
  have hlen : 0 < ts.length := List.length_pos.mpr h1
  refine ⟨rfl, ?_, ?_, ?_⟩ <;>
    simp only [MusicQueue.restore_state] <;> omega

/-- C3 witness. -/
theorem c3_restore_clamps_from_above_witness :
    ((MusicQueue.empty 500).restore_state [trackA, trackB] 5
        LoopMode.off).tracks = [trackA, trackB] ∧
    ((MusicQueue.empty 500).restore_state [trackA, trackB] 5
        LoopMode.off).current_index = min 5 ((([trackA, trackB] :
          List Track).length : Int) - 1) ∧
    0 ≤ ((MusicQueue.empty 500).restore_state [trackA, trackB] 5
        LoopMode.off).current_index ∧
    ((MusicQueue.empty 500).restore_state [trackA, trackB] 5
        LoopMode.off).current_index < (([trackA, trackB] :
          List Track).length : Int) :=
  c3_restore_clamps_from_above (MusicQueue.empty 500) [trackA, trackB] 5
    LoopMode.off (by decide) (by decide)

/-- On valid indices, `move` performs pop-then-insert and adjusts the
cursor exactly as the source's three-way conditional does. -/
theorem move_eq_of_valid (q : MusicQueue) (fi ti : Int)
    (h : 0 ≤ fi ∧ fi < (q.tracks.length : Int) ∧
      0 ≤ ti ∧ ti < (q.tracks.length : Int)) :
    q.move fi ti =
      ({ q with
          tracks := pyListInsert (q.tracks.eraseIdx fi.toNat) ti
            (q.tracks.get ⟨fi.toNat, by omega⟩),
          current_index :=
            if fi = q.current_index then ti
            else if fi < q.current_index ∧ q.current_index ≤ ti then
              q.current_index - 1
            else if ti ≤ q.current_index ∧ q.current_index < fi then
              q.current_index + 1
            else q.current_index },
        true) := by
  unfold MusicQueue.move
  rw [dif_pos h]

/-- A non-negative in-range Python insert is a plain `insertIdx`. -/
theorem pyListInsert_nonneg (l : List α) (i : Int) (x : α) (h0 : 0 ≤ i)
    (hle : i.toNat ≤ l.length) :
    pyListInsert l i x = l.insertIdx i.toNat x := by
  unfold pyListInsert
  rw [if_pos h0, Nat.min_eq_left hle]

/-- Element lookup in `insertIdx`: positions below the insertion point
are unchanged, the insertion point holds the new element, and higher
positions shift up by one. -/
theorem getElem?_insertIdx_cases (l : List α) (n : Nat) (x : α)
    (hn : n ≤ l.length) (k : Nat) :
    (l.insertIdx n x)[k]? =
      if k < n then l[k]? else if k = n then some x else l[k - 1]? := by
  induction l generalizing n k with
  | nil =>
    have hz : n = 0 := by simpa using hn
    subst hz
    cases k with
    | zero => rfl
    | succ k => simp
  | cons a l ih =>
    cases n with
    | zero =>
      cases k with
      | zero => rfl
      | succ k => simp
    | succ n =>
      cases k with
      | zero => simp
      | succ k =>
        simp only [List.insertIdx_succ_cons, List.getElem?_cons_succ]
        rw [ih n (by simpa using hn) k]
        by_cases h1 : k < n
        · rw [if_pos h1, if_pos (show k + 1 < n + 1 from by omega)]
        · rw [if_neg h1, if_neg (show ¬ (k + 1 < n + 1) from by omega)]
          by_cases h2 : k = n
          · rw [if_pos h2, if_pos (show k + 1 = n + 1 from by omega)]
          · rw [if_neg h2, if_neg (show ¬ (k + 1 = n + 1) from by omega)]
            cases k with
            | zero => omega
            | succ m =>
              rw [show m + 1 - 1 = m from by omega,
                show m + 1 + 1 - 1 = m + 1 from by omega,
                List.getElem?_cons_succ]

/-- A list is a permutation of its `f`-th element consed onto the list
with that element erased. -/
theorem eraseIdx_cons_perm (l : List α) (f : Nat) (h : f < l.length) :
    (l.get ⟨f, h⟩ :: l.eraseIdx f).Perm l := by
  induction l generalizing f with
  | nil => simp at h
  | cons a l ih =>
    cases f with
    | zero => exact List.Perm.refl _
    | succ f =>
      exact (List.Perm.swap a (l.get ⟨f, by simpa using h⟩) _).trans
        ((ih f (by simpa using h)).cons a)

/-- In-range `insertIdx` is a permutation of consing the new element. -/
theorem insertIdx_perm_cons (l : List α) (n : Nat) (x : α)
    (hn : n ≤ l.length) : (l.insertIdx n x).Perm (x :: l) := by
  induction l generalizing n with
  | nil =>
    have hz : n = 0 := by simpa using hn
    subst hz
    exact List.Perm.refl _
  | cons a l ih =>
    cases n with
    | zero => exact List.Perm.refl _
    | succ n =>
      exact ((ih n (by simpa using hn)).cons a).trans
        (List.Perm.swap x a l)

/-- Element lookup in a pop-then-insert move, in terms of the original
list. -/
theorem getElem?_eraseIdx_insertIdx (l : List α) (f t k : Nat) (x : α)
    (hf : f < l.length) (ht : t ≤ l.length - 1) :
    ((l.eraseIdx f).insertIdx t x)[k]? =
      if k < t then (if k < f then l[k]? else l[k + 1]?)
      else if k = t then some x
      else (if k - 1 < f then l[k - 1]? else l[k]?) := by
  have hrl : (l.eraseIdx f).length = l.length - 1 :=
    List.length_eraseIdx_of_lt hf
  rw [getElem?_insertIdx_cases _ _ _ (by omega) k]
  by_cases h1 : k < t
  · rw [if_pos h1, if_pos h1, List.getElem?_eraseIdx]
  · rw [if_neg h1, if_neg h1]
    by_cases h2 : k = t
    · rw [if_pos h2, if_pos h2]
    · rw [if_neg h2, if_neg h2, List.getElem?_eraseIdx]
      by_cases h3 : k - 1 < f
      · rw [if_pos h3, if_pos h3]
      · rw [if_neg h3, if_neg h3]
        rw [show k - 1 + 1 = k from by omega]

/-- C7 — on valid indices, `move` succeeds, relocates the track from
position `from` to position `to` (the new list is a permutation of the
old one, of the same length, with the moved track now at `to`), and the
cursor is re-homed inside bounds so that the current track is the same
one as before the move. -/
theorem c7_move_preserves_current (q : MusicQueue) (fi ti : Int)
    (hf0 : 0 ≤ fi) (hf1 : fi < (q.tracks.length : Int))
    (ht0 : 0 ≤ ti) (ht1 : ti < (q.tracks.length : Int))
    (hc0 : 0 ≤ q.current_index)
    (hc1 : q.current_index < (q.tracks.length : Int)) :
    (q.move fi ti).2 = true ∧
    (q.move fi ti).1.tracks.length = q.tracks.length ∧
    (q.move fi ti).1.tracks.Perm q.tracks ∧
    (q.move fi ti).1.tracks[ti.toNat]? = q.tracks[fi.toNat]? ∧
    0 ≤ (q.move fi ti).1.current_index ∧
    (q.move fi ti).1.current_index <
      ((q.move fi ti).1.tracks.length : Int) ∧
    (q.move fi ti).1.current = q.current := by
  have hf : fi.toNat < q.tracks.length := by omega
  have hrl : (q.tracks.eraseIdx fi.toNat).length = q.tracks.length - 1 :=
    List.length_eraseIdx_of_lt hf
  have htle : ti.toNat ≤ (q.tracks.eraseIdx fi.toNat).length := by omega
  rw [move_eq_of_valid q fi ti ⟨hf0, hf1, ht0, ht1⟩,
    pyListInsert_nonneg _ _ _ ht0 htle]
  dsimp only
  refine ⟨rfl, ?_, ?_, ?_, ?_, ?_, ?_⟩
  · rw [List.length_insertIdx _ _ htle, hrl]
    omega
  · exact (insertIdx_perm_cons _ _ _ htle).trans
      (eraseIdx_cons_perm q.tracks fi.toNat hf)
  · rw [getElem?_eraseIdx_insertIdx _ _ _ _ _ hf (by omega),
      if_neg (lt_irrefl ti.toNat), if_pos rfl,
      List.getElem?_eq_getElem hf]
    rfl
  · split
    · omega
    · split
      · omega
      · split <;> omega
  · rw [List.length_insertIdx _ _ htle, hrl]
    split
    · omega
    · split
      · omega
      · split <;> omega
  · unfold MusicQueue.current
    rw [if_pos hc0]
    by_cases e1 : fi = q.current_index
    · rw [if_pos e1, if_pos ht0, List.get?_eq_getElem?,
        List.get?_eq_getElem?,
        getElem?_eraseIdx_insertIdx _ _ _ _ _ hf (by omega),
        if_neg (lt_irrefl ti.toNat), if_pos rfl,
        show q.current_index.toNat = fi.toNat from by omega,
        List.getElem?_eq_getElem hf]
      rfl
    · rw [if_neg e1]
      by_cases e2 : fi < q.current_index ∧ q.current_index ≤ ti
      · rw [if_pos e2,
          if_pos (show (0 : Int) ≤ q.current_index - 1 from by omega),
          List.get?_eq_getElem?, List.get?_eq_getElem?,
          getElem?_eraseIdx_insertIdx _ _ _ _ _ hf (by omega),
          if_pos (show (q.current_index - 1).toNat < ti.toNat from
            by omega),
          if_neg (show ¬ ((q.current_index - 1).toNat < fi.toNat) from
            by omega),
          show (q.current_index - 1).toNat + 1 = q.current_index.toNat
            from by omega]
      · rw [if_neg e2]
        by_cases e3 : ti ≤ q.current_index ∧ q.current_index < fi
        · rw [if_pos e3,
            if_pos (show (0 : Int) ≤ q.current_index + 1 from by omega),
            List.get?_eq_getElem?, List.get?_eq_getElem?,
            getElem?_eraseIdx_insertIdx _ _ _ _ _ hf (by omega),
            if_neg (show ¬ ((q.current_index + 1).toNat < ti.toNat) from
              by omega),
            if_neg (show ¬ ((q.current_index + 1).toNat = ti.toNat) from
              by omega),
            if_pos (show (q.current_index + 1).toNat - 1 < fi.toNat from
              by omega),
            show (q.current_index + 1).toNat - 1 = q.current_index.toNat
              from by omega]
        · rw [if_neg e3, if_pos hc0, List.get?_eq_getElem?,
            List.get?_eq_getElem?,
            getElem?_eraseIdx_insertIdx _ _ _ _ _ hf (by omega)]
          by_cases e4 : q.current_index < ti
          · rw [if_pos (show q.current_index.toNat < ti.toNat from
                by omega),
              if_pos (show q.current_index.toNat < fi.toNat from
                by omega)]
          · rw [if_neg (show ¬ (q.current_index.toNat < ti.toNat) from
                by omega),
              if_neg (show ¬ (q.current_index.toNat = ti.toNat) from
                by omega),
              if_neg (show ¬ (q.current_index.toNat - 1 < fi.toNat) from
                by omega)]

/-- C7 witness — on `[A, B, C]` with the cursor on `B`, `move(0, 2)`
succeeds and the cursor still points at `B`. -/
theorem c7_move_preserves_current_witness :
    (qABC.move 0 2).2 = true ∧
    (qABC.move 0 2).1.tracks.length = qABC.tracks.length ∧
    (qABC.move 0 2).1.tracks.Perm qABC.tracks ∧
    (qABC.move 0 2).1.tracks[(2 : Int).toNat]? =
      qABC.tracks[(0 : Int).toNat]? ∧
    0 ≤ (qABC.move 0 2).1.current_index ∧
    (qABC.move 0 2).1.current_index <
      ((qABC.move 0 2).1.tracks.length : Int) ∧
    (qABC.move 0 2).1.current = qABC.current :=
  c7_move_preserves_current qABC 0 2 (by decide) (by decide) (by decide)
    (by decide) (by decide) (by decide)

/-- C8 — for every permutation the shuffle may choose, the prefix up to
and including the cursor is unchanged, the cursor and loop mode are
unchanged, the strict suffix after the cursor is permuted in place, and
with fewer than 2 upcoming tracks the queue is left untouched. -/
theorem c8_shuffle_frame (q : MusicQueue)
    (permute : List Track → List Track)
    (hperm : ∀ l, (permute l).Perm l) (hci : 0 ≤ q.current_index) :
    pySliceTo (q.current_index + 1) (q.shuffleWith permute).tracks =
      pySliceTo (q.current_index + 1) q.tracks ∧
    (q.shuffleWith permute).current_index = q.current_index ∧
    (q.shuffleWith permute).loop_mode = q.loop_mode ∧
    (pySliceFrom (q.current_index + 1)
        (q.shuffleWith permute).tracks).Perm
      (pySliceFrom (q.current_index + 1) q.tracks) ∧
    ((pySliceFrom (q.current_index + 1) q.tracks).length < 2 →
      q.shuffleWith permute = q) := by
  have h01 : (0 : Int) ≤ q.current_index + 1 := by omega
  have hTo : ∀ (l : List Track), pySliceTo (q.current_index + 1) l =
      l.take (q.current_index + 1).toNat := by
    intro l; unfold pySliceTo; rw [if_pos h01]
  have hFrom : ∀ (l : List Track), pySliceFrom (q.current_index + 1) l =
      l.drop (q.current_index + 1).toNat := by
    intro l; unfold pySliceFrom; rw [if_pos h01]
  unfold MusicQueue.shuffleWith
  by_cases hlt : q.current_index + 1 < (q.tracks.length : Int)
  · rw [if_pos hlt]
    have htk : (q.tracks.take (q.current_index + 1).toNat).length =
        (q.current_index + 1).toNat := by
      simp only [List.length_take]; omega
    refine ⟨?_, rfl, rfl, ?_, ?_⟩
    · simp only [hTo]
      exact List.take_left' htk
    · simp only [hTo, hFrom]
      rw [List.drop_left' htk]
      exact hperm _
    · intro hlen
      rw [hFrom] at hlen
      have h1 : (q.tracks.drop (q.current_index + 1).toNat).length = 1 := by
        simp only [List.length_drop] at hlen ⊢
        omega
      obtain ⟨a, ha⟩ := List.length_eq_one.mp h1
      have hpa : permute (q.tracks.drop (q.current_index + 1).toNat) =
          [a] := by
        rw [ha]
        exact List.perm_singleton.mp (hperm [a])
      simp only [hTo, hFrom, hpa]
      rw [← ha, List.take_append_drop]
  · rw [if_neg hlt]
    exact ⟨rfl, rfl, rfl, List.Perm.refl _, fun _ => rfl⟩

/-- C8 witness — shuffling `[A, B, C]` (cursor on `A`) with the reversal
permutation keeps `[A]` fixed and reverses the upcoming `[B, C]`. -/
theorem c8_shuffle_frame_witness :
    pySliceTo (qA0.current_index + 1)
        (qA0.shuffleWith (fun l => l.reverse)).tracks =
      pySliceTo (qA0.current_index + 1) qA0.tracks ∧
    (qA0.shuffleWith (fun l => l.reverse)).current_index =
      qA0.current_index ∧
    (qA0.shuffleWith (fun l => l.reverse)).loop_mode = qA0.loop_mode ∧
    (pySliceFrom (qA0.current_index + 1)
        (qA0.shuffleWith (fun l => l.reverse)).tracks).Perm
      (pySliceFrom (qA0.current_index + 1) qA0.tracks) ∧
    ((pySliceFrom (qA0.current_index + 1) qA0.tracks).length < 2 →
      qA0.shuffleWith (fun l => l.reverse) = qA0) :=
  c8_shuffle_frame qA0 (fun l => l.reverse) (fun l => l.reverse_perm)
    (by decide)

/-- `(k+1) % N` either steps up by one or wraps to zero. -/
theorem succ_mod_cases (k N : Nat) (hN : 0 < N) :
    (k + 1) % N = if k % N + 1 < N then k % N + 1 else 0 := by
  have hdm := Nat.div_add_mod k N
  have he : k + 1 = N * (k / N) + (k % N + 1) := by omega
  have hlt : k % N < N := Nat.mod_lt _ hN
  rw [he, Nat.mul_add_mod]
  split
  · exact Nat.mod_eq_of_lt (by omega)
  · have hNe : k % N + 1 = N := by omega
    rw [hNe, Nat.mod_self]

/-- One `next` step in `ALL` loop mode from a valid cursor: tracks and
mode persist, the cursor steps forward or wraps, and the returned track
is the new current one. -/
theorem next_all_step (q : MusicQueue) (hm : q.loop_mode = LoopMode.all)
    (h0 : 0 ≤ q.current_index)
    (h1 : q.current_index < (q.tracks.length : Int)) :
    (q.next).1.tracks = q.tracks ∧
    (q.next).1.loop_mode = LoopMode.all ∧
    (q.next).1.current_index =
      (if q.current_index + 1 < (q.tracks.length : Int)
        then q.current_index + 1 else 0) ∧
    (q.next).2 = (q.next).1.current := by
  have hlen : ¬ (q.tracks.length = 0) := by omega
  have hcur : q.current = some (q.tracks.get ⟨q.current_index.toNat,
      by omega⟩) := by
    unfold MusicQueue.current
    rw [if_pos h0]
    exact List.get?_eq_get (by omega)
  unfold MusicQueue.next
  rw [if_neg hlen]
  simp only [hcur, hm]
  rw [if_neg (show ¬ (LoopMode.all = LoopMode.one) from by decide)]
  rw [if_pos (trivial : True)]
  split
  · exact ⟨rfl, rfl, rfl, rfl⟩
  · exact ⟨rfl, rfl, rfl, rfl⟩

/-- After `k` calls of `next` in `ALL` mode from cursor `0`, the tracks
and loop mode are untouched and the cursor sits at `k mod N`. -/
theorem nextIter_all_mod (q : MusicQueue)
    (hm : q.loop_mode = LoopMode.all) (h2 : q.current_index = 0)
    (hN : 0 < q.tracks.length) (k : Nat) :
    (nextIter q k).tracks = q.tracks ∧
    (nextIter q k).loop_mode = LoopMode.all ∧
    (nextIter q k).current_index =
      ((k % q.tracks.length : Nat) : Int) := by
  induction k with
  | zero =>
    refine ⟨rfl, hm, ?_⟩
    rw [show nextIter q 0 = q from rfl, h2, Nat.zero_mod]
    rfl
  | succ k ih =>
    obtain ⟨it, il, ic⟩ := ih
    have hstep := next_all_step (nextIter q k) il
      (by rw [ic]; exact_mod_cast Nat.zero_le _)
      (by rw [ic, it]; exact_mod_cast Nat.mod_lt _ hN)
    obtain ⟨st, sl, sc, _⟩ := hstep
    refine ⟨?_, ?_, ?_⟩
    · rw [show nextIter q (k + 1) = ((nextIter q k).next).1 from rfl,
        st, it]
    · rw [show nextIter q (k + 1) = ((nextIter q k).next).1 from rfl, sl]
    · rw [show nextIter q (k + 1) = ((nextIter q k).next).1 from rfl,
        sc, ic, it, succ_mod_cases k q.tracks.length hN]
      have hmlt : k % q.tracks.length < q.tracks.length :=
        Nat.mod_lt _ hN
      generalize k % q.tracks.length = m at hmlt ⊢
      split <;> split <;> omega

/-- C9 — in `ALL` loop mode on a queue of size `N ≥ 1` starting at
cursor `0`, the cursor after `k` calls of `next` is `k mod N`; after `N`
calls the queue is unchanged with the cursor back at `0`, and the `N`-th
call returns the original first track. -/
theorem c9_loop_all_cycles (q : MusicQueue)
    (hm : q.loop_mode = LoopMode.all) (h2 : q.current_index = 0)
    (hN : 0 < q.tracks.length) :
    (∀ k, (nextIter q k).current_index =
      ((k % q.tracks.length : Nat) : Int)) ∧
    (nextIter q q.tracks.length).current_index = 0 ∧
    (nextIter q q.tracks.length).tracks = q.tracks ∧
    ((nextIter q (q.tracks.length - 1)).next).2 = q.tracks.get? 0 := by
  refine ⟨fun k => (nextIter_all_mod q hm h2 hN k).2.2, ?_, ?_, ?_⟩
  · rw [(nextIter_all_mod q hm h2 hN q.tracks.length).2.2, Nat.mod_self]
    rfl
  · exact (nextIter_all_mod q hm h2 hN q.tracks.length).1
  · have hs := nextIter_all_mod q hm h2 hN (q.tracks.length - 1)
    have hci : (nextIter q (q.tracks.length - 1)).current_index =
        ((q.tracks.length - 1 : Nat) : Int) := by
      rw [hs.2.2, Nat.mod_eq_of_lt (by omega)]
    have hstep := next_all_step (nextIter q (q.tracks.length - 1)) hs.2.1
      (by rw [hci]; exact_mod_cast Nat.zero_le _)
      (by rw [hci, hs.1]; exact_mod_cast Nat.sub_lt hN Nat.one_pos)
    have hcond : ¬ ((nextIter q (q.tracks.length - 1)).current_index + 1 <
        (((nextIter q (q.tracks.length - 1)).tracks.length : Nat) : Int)) := by
      rw [hci, hs.1]
      omega
    have hci0 : (((nextIter q (q.tracks.length - 1)).next).1).current_index
        = 0 := by
      rw [hstep.2.2.1, if_neg hcond]
    rw [hstep.2.2.2]
    unfold MusicQueue.current
    rw [hci0, if_pos (le_refl (0 : Int)), hstep.1, hs.1]
    rfl

/-- C9 witness — on the 2-track `ALL`-mode queue, two `next` calls bring
the cursor back to `0` and the second call returns track `A` again. -/
theorem c9_loop_all_cycles_witness :
    (nextIter qAB 2).current_index = 0 ∧
    (nextIter qAB 2).tracks = qAB.tracks ∧
    ((nextIter qAB 1).next).2 = qAB.tracks.get? 0 := by
  have h := c9_loop_all_cycles qAB rfl rfl (by decide)
  exact ⟨h.2.1, h.2.2.1, h.2.2.2⟩

/-- C5 counterexample — on a queue driven over capacity by
`restore_state` (3 tracks, `max_size = 2`), `add_many` of a 2-track
batch accepts 1 track and mutates the queue, although the queue already
holds at least `max_size` tracks. -/
theorem c5_overfull_add_many_accepts :
    qOver.max_size ≤ qOver.size ∧
    (qOver.add_many [trackA, trackB]).2 = 1 ∧
    (qOver.add_many [trackA, trackB]).1.tracks ≠ qOver.tracks := by
  decide

/-- C5 (amended) — provided the queue is within its capacity bound
(which only an oversized `restore_state` can break): when the remaining
capacity `k` is smaller than the batch, `add_many` appends exactly the
first `k` tracks and returns `k`; and at full capacity `add` and
`add_many` mutate nothing and report `false` / `0`. -/
theorem c5_capacity_truncation (q : MusicQueue) (ts : List Track)
    (t : Track) (hle : q.tracks.length ≤ q.max_size) :
    (q.max_size - q.tracks.length < ts.length →
      (q.add_many ts).1.tracks =
        q.tracks ++ ts.take (q.max_size - q.tracks.length) ∧
      (q.add_many ts).2 = q.max_size - q.tracks.length) ∧
    (q.max_size ≤ q.tracks.length →
      q.add t = (q, false) ∧ q.add_many ts = (q, 0)) := by
  have h0 : (0 : Int) ≤ (q.max_size : Int) - (q.tracks.length : Int) := by
    omega
  have hτ : ((q.max_size : Int) - (q.tracks.length : Int)).toNat =
      q.max_size - q.tracks.length := by omega
  constructor
  · intro hk
    simp only [MusicQueue.add_many, pySliceTo, if_pos h0, hτ,
      List.length_take]
    exact ⟨trivial, by omega⟩
  · intro hge
    have hz : q.max_size - q.tracks.length = 0 := by omega
    refine ⟨?_, ?_⟩
    · simp only [MusicQueue.add, if_pos hge]
    · simp only [MusicQueue.add_many, pySliceTo, if_pos h0, hτ, hz,
        List.take_zero, List.append_nil]
      rfl

/-- C5 witness — a fresh `max_size = 2` queue truncates a 3-track batch
to its first 2 tracks, and a full `max_size = 1` queue accepts
nothing. -/
theorem c5_capacity_truncation_witness :
    ((MusicQueue.empty 2).add_many [trackA, trackB, trackC]).1.tracks =
      (MusicQueue.empty 2).tracks ++ [trackA, trackB, trackC].take 2 ∧
    ((MusicQueue.empty 2).add_many [trackA, trackB, trackC]).2 = 2 ∧
    qFull.add trackA = (qFull, false) ∧
    qFull.add_many [trackB] = (qFull, 0) := by
  have h1 := (c5_capacity_truncation (MusicQueue.empty 2)
    [trackA, trackB, trackC] trackA (by decide)).1 (by decide)
  have h2 := (c5_capacity_truncation qFull [trackB] trackA
    (by decide)).2 (by decide)
  exact ⟨h1.1, h1.2, h2.1, h2.2⟩

/-- C10 — with a current track, `seek` fails and leaves the whole player
state unchanged whenever the requested position is negative, or the
track's duration is known non-zero and the position is at or past it. -/
theorem c10_seek_rejects_out_of_range (p : MusicPlayer) (track : Track)
    (seconds : Int) (stream_url : Option String)
    (hcur : p.queue.current = some track)
    (hbad : seconds < 0 ∨ (0 < track.duration ∧ track.duration ≤ seconds)) :
    p.seek seconds stream_url = (p, false) := by
  simp only [MusicPlayer.seek, hcur, if_pos hbad]
  split <;> rfl

/-- C10 witness — `seek(-5)` and `seek(180)` on a 180-second track both
reject without touching the player. -/
theorem c10_seek_rejects_out_of_range_witness :
    playerA.seek (-5) (some "s") = (playerA, false) ∧
    playerA.seek 180 (some "s") = (playerA, false) :=
  ⟨c10_seek_rejects_out_of_range playerA trackA (-5) (some "s") (by decide)
      (Or.inl (by decide)),
    c10_seek_rejects_out_of_range playerA trackA 180 (some "s") (by decide)
      (Or.inr (by decide))⟩

end Bot
